import Mathlib

set_option linter.unusedVariables false

/-! Shallow embedding of src/src/util/HaltingAnalysis.ts.

The TypeScript module analyses how a single node failure cascades through a
federated quorum graph.  Mutable state (the memoized construction cache and
the per-pass liveness / casualty state) is threaded explicitly; thrown
exceptions become `Except AnalysisError`; the unbounded recursions of
`generateNode` and `checkDependents` take an explicit fuel argument and
report exhaustion as `AnalysisError.outOfFuel` / `Option.none`. -/

/-! The types imported from src/Types/NetworkTypes.ts are not among the
sources.  `NetworkQuorumSet` is modelled from the spec: a quorum-set
specification is "threshold plus a mixed ordered list of peer identifiers
and/or nested quorum-set specifications", so an entry is a tagged variant of
the two.  A dedicated list type keeps the inductive family non-nested so
that all recursions below are structural and reduce definitionally. -/

mutual

/-- Modelled from the spec: one entry of a quorum-set specification, either a
peer identifier or a nested quorum-set specification. -/
inductive QuorumSetEntry : Type where
  | direct (name : String)
  | nested (q : NetworkQuorumSet)

/-- Ordered list of quorum-set entries. -/
inductive QuorumSetEntries : Type where
  | nil
  | cons (e : QuorumSetEntry) (rest : QuorumSetEntries)

/-- Modelled from the spec: a quorum-set specification `{ t, v }` with
threshold `t` and entry list `v`. -/
inductive NetworkQuorumSet : Type where
  | mk (t : Int) (v : QuorumSetEntries)

end

def NetworkQuorumSet.t : NetworkQuorumSet → Int
  | .mk t _ => t

def NetworkQuorumSet.v : NetworkQuorumSet → QuorumSetEntries
  | .mk _ v => v

def QuorumSetEntries.toList : QuorumSetEntries → List QuorumSetEntry
  | .nil => []
  | .cons e rest => e :: rest.toList

/-- Modelled from the spec: an externally supplied node, exposing a unique
identifier, a quorum-set specification and a pre-computed distance from the
home node. -/
structure NetworkGraphNode where
  node : String
  qset : NetworkQuorumSet
  distance : Int

mutual

/-- One dependency of an `AnalysisQuorumSet`: the TypeScript union
`string | AnalysisQuorumSet`. -/
inductive ADep : Type where
  | depName (s : String)
  | depSet (q : AnalysisQuorumSet)

/-- Ordered list of analysis dependencies. -/
inductive ADeps : Type where
  | nil
  | cons (d : ADep) (rest : ADeps)

/-- The internal quorum set of an analysis node: a threshold plus a list of
dependencies, each a node name or a nested analysis quorum set. -/
inductive AnalysisQuorumSet : Type where
  | mk (threshold : Int) (dependencies : ADeps)

end

def AnalysisQuorumSet.threshold : AnalysisQuorumSet → Int
  | .mk t _ => t

def AnalysisQuorumSet.dependencies : AnalysisQuorumSet → ADeps
  | .mk _ ds => ds

/-- Array push on a dependency list. -/
def ADeps.push : ADeps → ADep → ADeps
  | .nil, d => .cons d .nil
  | .cons x rest, d => .cons x (rest.push d)

/-- The mutation `quorumSet.dependencies.push d` as a functional update. -/
def AnalysisQuorumSet.pushDep : AnalysisQuorumSet → ADep → AnalysisQuorumSet
  | .mk t ds, d => .mk t (ds.push d)

def ADeps.toList : ADeps → List ADep
  | .nil => []
  | .cons d rest => d :: rest.toList

/-- The internal analysis node of HaltingAnalysis.ts. -/
structure AnalysisNode where
  name : String
  live : Bool
  quorumSet : AnalysisQuorumSet
  dependentsNames : List String
  networkObject : NetworkGraphNode

/-- The failures HaltingAnalysis.ts can raise.  `noHomeNode` and
`badNetworkGraph` are the two thrown configuration errors,
`unsupportedOrder` is the thrown fault-set-size error, `typeErr` models the
JavaScript TypeError raised when a peer-identifier entry is traversed as if
it were a quorum set, `missingNode` models the crash of the unchecked
`getNode` cast, and `outOfFuel` is the embedding's marker for exhausting the
recursion fuel. -/
inductive AnalysisError : Type where
  | noHomeNode
  | badNetworkGraph (name : String)
  | typeErr
  | unsupportedOrder
  | missingNode
  | outOfFuel
deriving DecidableEq

/-- Failure case reported by the analysis. -/
structure HaltingFailure where
  vulnerableNodes : List NetworkGraphNode
  affectedNodes : List NetworkGraphNode

/-- TypeScript `isNested`: `typeof set[0] != "string"`.  The whole entry
list is classified by the runtime shape of its first element; an empty list
also selects the nested branch. -/
def isNested : QuorumSetEntries → Bool
  | .cons (.direct _) _ => false
  | _ => true

/-- `entryCache.get`, with the cache as an insertion-ordered list. -/
def lookupCache (st : List AnalysisNode) (nm : String) : Option AnalysisNode :=
  st.find? (fun n => n.name == nm)

/-- In-place mutation of the cached node named `nm`, as a functional map. -/
def cacheUpdate (st : List AnalysisNode) (nm : String)
    (f : AnalysisNode → AnalysisNode) : List AnalysisNode :=
  st.map (fun n => if n.name == nm then f n else n)

mutual

/-- TypeScript `generateQuorumset(set, entry)`.  `gn` is the enclosing
`generateNode` (at one fuel step less), `entryName` identifies the entry
whose edges are being built, and the cache is threaded explicitly. -/
def generateQuorumset (nodes : List NetworkGraphNode)
    (gn : NetworkGraphNode → List AnalysisNode →
      Except AnalysisError (String × List AnalysisNode)) :
    NetworkQuorumSet → String → List AnalysisNode →
      Except AnalysisError (List AnalysisNode)
  | .mk _ v, entryName, st =>
    if isNested v then genQSNested nodes gn v entryName st
    else genQSDirect nodes gn v entryName st

/-- The `isNested` branch of `generateQuorumset`: every element is traversed
as a quorum set.  A peer-identifier element reaching this branch is the
JavaScript crash `undefined[0]` (reading `.v` of a string), modelled as
`typeErr`. -/
def genQSNested (nodes : List NetworkGraphNode)
    (gn : NetworkGraphNode → List AnalysisNode →
      Except AnalysisError (String × List AnalysisNode)) :
    QuorumSetEntries → String → List AnalysisNode →
      Except AnalysisError (List AnalysisNode)
  | .nil, _, _st => .ok _st
  | .cons (.nested q) rest, entryName, st =>
    match generateQuorumset nodes gn q entryName st with
    | .error e => .error e
    | .ok st1 => genQSNested nodes gn rest entryName st1
  | .cons (.direct _) _, _, _ => .error .typeErr

/-- The string branch of `generateQuorumset`: every element is treated as a
peer identifier and resolved against the input collection with
`nodes.find(n => n.node == dependentName)`, and forward/backward edges are
recorded for the found node.  A nested element reaching this branch is
compared against node ids with JavaScript loose equality, which coerces the
plain quorum-set object via ToPrimitive/toString to the string
"[object Object]": a node with that literal id is matched (and the walk
proceeds with it), and otherwise the "Bad network graph" error is thrown
with the coerced string in its message. -/
def genQSDirect (nodes : List NetworkGraphNode)
    (gn : NetworkGraphNode → List AnalysisNode →
      Except AnalysisError (String × List AnalysisNode)) :
    QuorumSetEntries → String → List AnalysisNode →
      Except AnalysisError (List AnalysisNode)
  | .nil, _, _st => .ok _st
  | .cons (.direct depName) rest, entryName, st =>
    match nodes.find? (fun n => n.node == depName) with
    | none => .error (.badNetworkGraph depName)
    | some depNetworkNode =>
      match gn depNetworkNode st with
      | .error e => .error e
      | .ok (depNodeName, st1) =>
        let st2 := cacheUpdate st1 entryName
          (fun n => { n with quorumSet := n.quorumSet.pushDep (.depName depNodeName) })
        let st3 := cacheUpdate st2 depNodeName
          (fun n => { n with dependentsNames := n.dependentsNames ++ [entryName] })
        genQSDirect nodes gn rest entryName st3
  | .cons (.nested _) rest, entryName, st =>
    match nodes.find? (fun n => n.node == "[object Object]") with
    | none => .error (.badNetworkGraph "[object Object]")
    | some depNetworkNode =>
      match gn depNetworkNode st with
      | .error e => .error e
      | .ok (depNodeName, st1) =>
        let st2 := cacheUpdate st1 entryName
          (fun n => { n with quorumSet := n.quorumSet.pushDep (.depName depNodeName) })
        let st3 := cacheUpdate st2 depNodeName
          (fun n => { n with dependentsNames := n.dependentsNames ++ [entryName] })
        genQSDirect nodes gn rest entryName st3

end

/-- The partially built analysis node `generateNode` registers in the cache
before walking the node's quorum tree: live, with the node's top-level
threshold and an empty dependency list. -/
def freshEntry (node : NetworkGraphNode) : AnalysisNode :=
  { name := node.node
    live := true
    quorumSet := .mk node.qset.t .nil
    dependentsNames := []
    networkObject := node }

/-- TypeScript `generateNode(node)`.  The cache is checked before anything
else (register-before-recurse), a fresh entry is registered with an empty
dependency list before its quorum tree is walked, and the walk resolves the
node's edges through `generateQuorumset`.  The fuel argument bounds the
recursion depth of the embedding; the source recursion has no such bound. -/
def generateNode (nodes : List NetworkGraphNode) :
    Nat → NetworkGraphNode → List AnalysisNode →
      Except AnalysisError (String × List AnalysisNode)
  | 0, node, st =>
    match lookupCache st node.node with
    | some cached => .ok (cached.name, st)
    | none => .error .outOfFuel
  | fuel + 1, node, st =>
    match lookupCache st node.node with
    | some cached => .ok (cached.name, st)
    | none =>
      match generateQuorumset nodes (fun nd s => generateNode nodes fuel nd s)
          node.qset node.node (st ++ [freshEntry node]) with
      | .error e => .error e
      | .ok st2 => .ok (node.node, st2)

/-- TypeScript `createAnalysisStructure(nodes)`: locate the distance-0 node
(throwing if none), build the analysis graph from it, and return the root
name together with the cache contents in insertion order. -/
def createAnalysisStructure (nodes : List NetworkGraphNode) :
    Except AnalysisError (String × List AnalysisNode) :=
  match nodes.find? (fun n => n.distance == 0) with
  | none => .error .noHomeNode
  | some myNode =>
    match generateNode nodes (nodes.length + 1) myNode [] with
    | .error e => .error e
    | .ok (rootName, cache) => .ok (rootName, cache)

/-- The mutable state of one failure-simulation pass: the analysis nodes
(whose `live` flags the pass mutates) and the `deadNodes` accumulator. -/
structure PassState where
  nodes : List AnalysisNode
  deadNodes : List NetworkGraphNode

mutual

/-- TypeScript `quorumSetMeetsThreshold(quorum)`: start a counter at the
threshold, decrement it for each live direct dependency and each satisfied
nested set, record every dead direct dependency in `deadNodes`, and succeed
iff the counter ends at or below zero.  `none` models the crash of the
unchecked `getNode` cast on an unknown name. -/
def quorumSetMeetsThreshold : AnalysisQuorumSet → PassState →
    Option (Bool × PassState)
  | .mk threshold deps, s =>
    match qsmtDeps deps threshold s with
    | none => none
    | some (thr, s1) => some (decide (thr ≤ 0), s1)

/-- The `forEach` of `quorumSetMeetsThreshold` over the dependency list,
threading the running counter and the pass state. -/
def qsmtDeps : ADeps → Int → PassState → Option (Int × PassState)
  | .nil, thr, s => some (thr, s)
  | .cons (.depSet q) rest, thr, s =>
    match quorumSetMeetsThreshold q s with
    | none => none
    | some (b, s1) => qsmtDeps rest (if b then thr - 1 else thr) s1
  | .cons (.depName nm) rest, thr, s =>
    match lookupCache s.nodes nm with
    | none => none
    | some dependentNode =>
      if dependentNode.live then qsmtDeps rest (thr - 1) s
      else qsmtDeps rest thr
        { s with deadNodes := s.deadNodes ++ [dependentNode.networkObject] }

end

/-- The mutation `node.live = false` on the node named `nm`. -/
def setDead (ns : List AnalysisNode) (nm : String) : List AnalysisNode :=
  ns.map (fun n => if n.name == nm then { n with live := false } else n)

/-- TypeScript `reset(nodes)`: set every `live` flag back to `true`. -/
def reset (ns : List AnalysisNode) : List AnalysisNode :=
  ns.map (fun n => { n with live := true })

/-- TypeScript `checkDependents(deadNode)`, operating on the dead node's
`dependentsNames` list: a dependent that is live but no longer meets its
threshold is marked dead, recorded, and recursed into.  The fuel argument
bounds the recursion depth of the embedding. -/
def checkDependents : Nat → List String → PassState → Option PassState
  | 0, [], s => some s
  | 0, _ :: _, _ => none
  | _fuel + 1, [], s => some s
  | fuel + 1, nodeName :: rest, s =>
    match lookupCache s.nodes nodeName with
    | none => none
    | some dependentNode =>
      if dependentNode.live then
        match quorumSetMeetsThreshold dependentNode.quorumSet s with
        | none => none
        | some (true, s1) => checkDependents fuel rest s1
        | some (false, s1) =>
          let s2 : PassState :=
            { nodes := setDead s1.nodes nodeName
              deadNodes := s1.deadNodes ++ [dependentNode.networkObject] }
          match checkDependents fuel dependentNode.dependentsNames s2 with
          | none => none
          | some s3 => checkDependents fuel rest s3
      else checkDependents fuel rest s

mutual

/-- Structural equality on quorum sets, used to model JavaScript `Set`
identity on the (structurally distinct) caller node objects. -/
def qsetBeq : NetworkQuorumSet → NetworkQuorumSet → Bool
  | .mk t1 v1, .mk t2 v2 => t1 == t2 && entriesBeq v1 v2

/-- Structural equality on entry lists. -/
def entriesBeq : QuorumSetEntries → QuorumSetEntries → Bool
  | .nil, .nil => true
  | .cons e1 r1, .cons e2 r2 => entryBeq e1 e2 && entriesBeq r1 r2
  | _, _ => false

/-- Structural equality on entries. -/
def entryBeq : QuorumSetEntry → QuorumSetEntry → Bool
  | .direct a, .direct b => a == b
  | .nested a, .nested b => qsetBeq a b
  | _, _ => false

end

/-- Structural equality on network nodes. -/
def ngnBeq (a b : NetworkGraphNode) : Bool :=
  a.node == b.node && a.distance == b.distance && qsetBeq a.qset b.qset

/-- `Array.from(new Set(deadNodes))`: deduplicate keeping first occurrences.
JavaScript `Set` keys by object identity; the input node objects are
structurally distinct here, so identity is modelled structurally. -/
def jsSetDedup (l : List NetworkGraphNode) : List NetworkGraphNode :=
  l.foldl (fun acc x => if acc.any (fun y => ngnBeq y x) then acc else acc ++ [x]) []

/-- One iteration of the driver's `forEach`: reset liveness, fail the
candidate, propagate, and report a failure case iff the root ended dead. -/
def runPass (analysisNodes : List AnalysisNode) (rootName : String)
    (nodeToHalt : AnalysisNode) : Except AnalysisError (Option HaltingFailure) :=
  let base := reset analysisNodes
  let s0 : PassState := { nodes := setDead base nodeToHalt.name, deadNodes := [] }
  match checkDependents ((analysisNodes.length + 1) * (analysisNodes.length + 1))
      nodeToHalt.dependentsNames s0 with
  | none => .error .missingNode
  | some s1 =>
    match lookupCache s1.nodes rootName with
    | none => .error .missingNode
    | some rootNode =>
      if rootNode.live then .ok none
      else .ok (some
        { vulnerableNodes := [nodeToHalt.networkObject]
          affectedNodes := jsSetDedup s1.deadNodes })

/-- The driver's `forEach` over all analysis nodes, skipping the root and
collecting the failure cases in traversal order. -/
def runPasses (analysisNodes : List AnalysisNode) (rootName : String) :
    List AnalysisNode → Except AnalysisError (List HaltingFailure)
  | [] => .ok []
  | nodeToHalt :: rest =>
    if nodeToHalt.name == rootName then runPasses analysisNodes rootName rest
    else
      match runPass analysisNodes rootName nodeToHalt with
      | .error e => .error e
      | .ok none => runPasses analysisNodes rootName rest
      | .ok (some fc) =>
        match runPasses analysisNodes rootName rest with
        | .error e => .error e
        | .ok fcs => .ok (fc :: fcs)

/-- TypeScript `haltingAnalysis(nodes, numberOfNodesToTest)`: reject any
fault-set size other than 1 before doing anything else, build the analysis
graph once, then simulate failing each non-root node. -/
def haltingAnalysis (nodes : List NetworkGraphNode)
    (numberOfNodesToTest : Int) : Except AnalysisError (List HaltingFailure) :=
  if numberOfNodesToTest ≠ 1 then .error .unsupportedOrder
  else
    match createAnalysisStructure nodes with
    | .error e => .error e
    | .ok (rootName, analysisNodes) => runPasses analysisNodes rootName analysisNodes

/-! Concrete inputs used by the scenario claims. -/

/-- Empty quorum set with threshold 0. -/
def qsetEmpty : NetworkQuorumSet := .mk 0 .nil

/-- Scenario A home node: threshold 2 over A, B, C. -/
def scenAHome : NetworkGraphNode :=
  { node := "H"
    qset := .mk 2 (.cons (.direct "A") (.cons (.direct "B") (.cons (.direct "C") .nil)))
    distance := 0 }

def scenANodeA : NetworkGraphNode := { node := "A", qset := qsetEmpty, distance := 1 }

def scenANodeB : NetworkGraphNode := { node := "B", qset := qsetEmpty, distance := 1 }

def scenANodeC : NetworkGraphNode := { node := "C", qset := qsetEmpty, distance := 1 }

/-- Scenario A input collection. -/
def scenA : List NetworkGraphNode := [scenAHome, scenANodeA, scenANodeB, scenANodeC]

/-- Scenario B home node: threshold 1 over A alone. -/
def scenBHome : NetworkGraphNode :=
  { node := "H", qset := .mk 1 (.cons (.direct "A") .nil), distance := 0 }

def scenBNodeA : NetworkGraphNode := { node := "A", qset := qsetEmpty, distance := 1 }

def scenBNodeB : NetworkGraphNode := { node := "B", qset := qsetEmpty, distance := 1 }

/-- Scenario B input collection. -/
def scenB : List NetworkGraphNode := [scenBHome, scenBNodeA, scenBNodeB]

/-- Nested-flattening example, home node: threshold 2 over a single nested
requirement with threshold 1 over A and B. -/
def c1Home : NetworkGraphNode :=
  { node := "H"
    qset := .mk 2 (.cons (.nested (.mk 1 (.cons (.direct "A") (.cons (.direct "B") .nil)))) .nil)
    distance := 0 }

def c1NodeA : NetworkGraphNode := { node := "A", qset := qsetEmpty, distance := 1 }

def c1NodeB : NetworkGraphNode := { node := "B", qset := qsetEmpty, distance := 1 }

/-- Nested-flattening example input collection. -/
def c1Input : List NetworkGraphNode := [c1Home, c1NodeA, c1NodeB]

/-- Input with two distance-0 nodes. -/
def twoHomes : List NetworkGraphNode :=
  [{ node := "H1", qset := qsetEmpty, distance := 0 },
   { node := "H2", qset := qsetEmpty, distance := 0 }]

/-- Input whose home node mixes a peer identifier with a nested quorum set,
identifier first; the referenced id A exists and there is exactly one
distance-0 node, so the input is otherwise well formed. -/
def mixedInput : List NetworkGraphNode :=
  [{ node := "H"
     qset := .mk 1 (.cons (.direct "A") (.cons (.nested qsetEmpty) .nil))
     distance := 0 },
   { node := "A", qset := qsetEmpty, distance := 1 }]

/-- As `mixedInput` but with the nested quorum set first. -/
def mixedInputNestedFirst : List NetworkGraphNode :=
  [{ node := "H"
     qset := .mk 1 (.cons (.nested qsetEmpty) (.cons (.direct "A") .nil))
     distance := 0 },
   { node := "A", qset := qsetEmpty, distance := 1 }]

/-- As `mixedInput`, plus a node whose id is literally the string
"[object Object]": JavaScript loose equality coerces the nested quorum-set
object to exactly that string, so the lookup for the nested entry matches
this node and the walk proceeds with it. -/
def mixedInputObjNode : List NetworkGraphNode :=
  [{ node := "H"
     qset := .mk 1 (.cons (.direct "A") (.cons (.nested qsetEmpty) .nil))
     distance := 0 },
   { node := "A", qset := qsetEmpty, distance := 1 },
   { node := "[object Object]", qset := qsetEmpty, distance := 1 }]

/-! Specification-side definitions, written from the spec's words and used
only to compare the code's behaviour against the spec. -/

mutual

/-- Modelled from the spec: a requirement is satisfied under a liveness
assignment iff at least `threshold` of its entries are satisfied, where a
satisfied nested subtree counts as exactly one unit. -/
def specSatisfiedQ (live : String → Bool) : NetworkQuorumSet → Bool
  | .mk t v => decide (t ≤ specCountSat live v)

/-- Number of satisfied entries of a quorum-set entry list under the spec's
nested-unit semantics. -/
def specCountSat (live : String → Bool) : QuorumSetEntries → Int
  | .nil => 0
  | .cons e rest => (if specSatE live e then 1 else 0) + specCountSat live rest

/-- Satisfaction of a single entry under the spec's nested-unit semantics. -/
def specSatE (live : String → Bool) : QuorumSetEntry → Bool
  | .direct nm => live nm
  | .nested q => specSatisfiedQ live q

end

/-- The liveness assignment of a pass state: just names and live flags. -/
def liveProj (ns : List AnalysisNode) : List (String × Bool) :=
  ns.map (fun n => (n.name, n.live))

/-- Lookup in a liveness assignment. -/
def lookupLive (proj : List (String × Bool)) (nm : String) : Option Bool :=
  (proj.find? (fun p => p.1 == nm)).map (fun p => p.2)

mutual

/-- Specification-side restatement of the evaluator's boolean result as a
pure function of the threshold, the dependency list and the liveness
assignment alone. -/
def specMeets (proj : List (String × Bool)) : AnalysisQuorumSet → Option Bool
  | .mk t deps =>
    match specThr proj deps t with
    | none => none
    | some thr => some (decide (thr ≤ 0))

/-- Specification-side counter for `specMeets`. -/
def specThr (proj : List (String × Bool)) : ADeps → Int → Option Int
  | .nil, thr => some thr
  | .cons (.depSet q) rest, thr =>
    match specMeets proj q with
    | none => none
    | some b => specThr proj rest (if b then thr - 1 else thr)
  | .cons (.depName nm) rest, thr =>
    match lookupLive proj nm with
    | none => none
    | some l => if l then specThr proj rest (thr - 1) else specThr proj rest thr

end

mutual

/-- Specification-side restatement of the evaluator's side effect: the
network objects of the dead direct references of a quorum set, in traversal
order. -/
def collectDeadRefsQ (g : List AnalysisNode) : AnalysisQuorumSet → List NetworkGraphNode
  | .mk _ deps => collectDeadRefsD g deps

/-- Dead direct references of a dependency list. -/
def collectDeadRefsD (g : List AnalysisNode) : ADeps → List NetworkGraphNode
  | .nil => []
  | .cons (.depSet q) rest => collectDeadRefsQ g q ++ collectDeadRefsD g rest
  | .cons (.depName nm) rest =>
    match lookupCache g nm with
    | none => collectDeadRefsD g rest
    | some dn =>
      if dn.live then collectDeadRefsD g rest
      else dn.networkObject :: collectDeadRefsD g rest

end

/-- Detects the embedding's fuel-exhaustion marker in an analysis result. -/
def isOutOfFuel {α : Type} : Except AnalysisError α → Bool
  | .error .outOfFuel => true
  | _ => false

/-- The names of the cached analysis nodes, in insertion order. -/
def cacheNames (st : List AnalysisNode) : List String :=
  st.map (fun n => n.name)

/-- The distinct ids of the input collection. -/
def distinctIds (nodes : List NetworkGraphNode) : List String :=
  (nodes.map (fun n => n.node)).dedup

/-- Number of distinct input ids not yet registered in the cache; the
decreasing measure of the memoized construction. -/
def uncached (nodes : List NetworkGraphNode) (st : List AnalysisNode) : Nat :=
  ((distinctIds nodes).filter (fun id => decide (id ∉ cacheNames st))).length

/-- The construction only ever extends the cache: the new name list is the
old one plus fresh names, every added name is an input id, and
duplicate-freeness is preserved. -/
def CacheExt (nodes : List NetworkGraphNode) (st st' : List AnalysisNode) : Prop :=
  ∃ ext, cacheNames st' = cacheNames st ++ ext ∧
    (∀ nm ∈ ext, nm ∈ nodes.map (fun n => n.node)) ∧
    ((cacheNames st).Nodup → (cacheNames st').Nodup)

/-- Induction hypothesis packaging for `generateNode` as seen by the quorum
walkers: enough fuel means no fuel exhaustion, and success only extends the
cache and returns the requested node's id. -/
def GNGood (nodes : List NetworkGraphNode) (fuel : Nat)
    (gn : NetworkGraphNode → List AnalysisNode →
      Except AnalysisError (String × List AnalysisNode)) : Prop :=
  ∀ node st, node ∈ nodes →
    (uncached nodes st ≤ fuel → gn node st ≠ .error .outOfFuel) ∧
    (∀ nm st', gn node st = .ok (nm, st') →
      CacheExt nodes st st' ∧ nm = node.node ∧ nm ∈ cacheNames st')

/-- Liveness is monotone between two node lists: position by position, a
dead node stays dead. -/
def liveMono (old new : List AnalysisNode) : Prop :=
  List.Forall₂ (fun a b => a.live = false → b.live = false) old new

/-- A dead analysis node named A, used to instantiate hypotheses of the
universally quantified theorems at a concrete input. -/
def wNodeA : AnalysisNode :=
  { name := "A"
    live := false
    quorumSet := .mk 0 .nil
    dependentsNames := ["H"]
    networkObject := c1NodeA }

/-- The analysis node the construction builds for Scenario B's home node. -/
def scenBEntryH : AnalysisNode :=
  { name := "H"
    live := true
    quorumSet := .mk 1 (.cons (.depName "A") .nil)
    dependentsNames := []
    networkObject := scenBHome }

/-- The analysis node the construction builds for Scenario B's node A. -/
def scenBEntryA : AnalysisNode :=
  { name := "A"
    live := true
    quorumSet := .mk 0 .nil
    dependentsNames := ["H"]
    networkObject := scenBNodeA }

example : haltingAnalysis scenA 1 = .ok [] := by rfl

example : createAnalysisStructure scenB = .ok ("H", [scenBEntryH, scenBEntryA]) := by rfl

example : haltingAnalysis scenB 1 =
    .ok [{ vulnerableNodes := [scenBNodeA], affectedNodes := [scenBNodeA, scenBHome] }] := by rfl

example : (createAnalysisStructure c1Input).map (fun r =>
    (lookupCache r.2 "H").map (fun h => h.quorumSet)) =
    .ok (some (.mk 2 (.cons (.depName "A") (.cons (.depName "B") .nil)))) := by rfl

example : (createAnalysisStructure c1Input).map (fun r =>
    (lookupCache r.2 "H").map (fun h =>
      (quorumSetMeetsThreshold h.quorumSet { nodes := r.2, deadNodes := [] }).map Prod.fst)) =
    .ok (some (some true)) := by rfl

example : specSatisfiedQ (fun _ => true) c1Home.qset = false := by rfl

example : (createAnalysisStructure twoHomes).map Prod.fst = .ok "H1" := by rfl

example : createAnalysisStructure mixedInput = .error (.badNetworkGraph "[object Object]") := by rfl

example : createAnalysisStructure mixedInputNestedFirst = .error .typeErr := by rfl

example : (createAnalysisStructure mixedInputObjNode).map (fun r =>
    (lookupCache r.2 "H").map (fun h => h.quorumSet)) =
    .ok (some (.mk 1 (.cons (.depName "A") (.cons (.depName "[object Object]") .nil)))) := by rfl

example : (createAnalysisStructure scenB).map (fun r => r.2.map (fun n => n.name)) =
    .ok ["H", "A"] := by rfl

/-! Claim theorems. -/

/-- C1 (code bug evidence): graph construction flattens a nested requirement
into its parent's dependency list — the home node's requirement
{threshold 2 over one nested {threshold 1 over A, B}} is built as the flat
set {threshold 2 over A, B} — so end-to-end evaluation with A and B live
counts the single satisfied nested subtree as two units and reports the home
requirement satisfied, while the spec's nested-unit semantics (one unit per
satisfied subtree, evaluated by `specSatisfiedQ`) reports it unsatisfied. -/
theorem c1_nested_subtree_flattened :
    (createAnalysisStructure c1Input).map (fun r =>
      (lookupCache r.2 "H").map (fun h => h.quorumSet)) =
      .ok (some (.mk 2 (.cons (.depName "A") (.cons (.depName "B") .nil)))) ∧
    (createAnalysisStructure c1Input).map (fun r =>
      (lookupCache r.2 "H").map (fun h =>
        (quorumSetMeetsThreshold h.quorumSet { nodes := r.2, deadNodes := [] }).map Prod.fst)) =
      .ok (some (some true)) ∧
    specSatisfiedQ (fun _ => true) c1Home.qset = false :=
  ⟨rfl, rfl, rfl⟩

/-- C2 (counterexample): on Scenario B the analysis does return exactly one
failure case with vulnerable node A, but its affected list is [A, H], not
[H] as claimed — the evaluator records the failed candidate A itself as a
casualty when the home node's requirement is re-checked. -/
theorem c2_affected_includes_candidate :
    (haltingAnalysis scenB 1).map (fun cases => cases.map (fun fc =>
      (fc.vulnerableNodes.map (fun n => n.node), fc.affectedNodes.map (fun n => n.node)))) =
      .ok [(["A"], ["A", "H"])] ∧
    (["A", "H"] : List String) ≠ ["H"] :=
  ⟨rfl, by decide⟩

/-- C2 (amended): on Scenario B the analysis returns exactly one failure
case, with vulnerable nodes [A] and affected nodes [A, H]; node B, being
unreferenced, is not part of the analysis graph and produces no case. -/
theorem c2_scenarioB_exact_output :
    haltingAnalysis scenB 1 =
      .ok [{ vulnerableNodes := [scenBNodeA], affectedNodes := [scenBNodeA, scenBHome] }] :=
  rfl

/-- C6: on Scenario A (home threshold 2 over A, B, C, each with threshold 0)
the analysis returns an empty failure-case list — failing any single node
leaves the home node satisfied. -/
theorem c6_scenarioA_no_failure_cases : haltingAnalysis scenA 1 = .ok [] :=
  rfl

/-- C7: for every input collection and every fault-set size other than 1,
the analysis fails immediately with the unsupported-configuration error and
produces no partial output. -/
theorem c7_unsupported_fault_size (nodes : List NetworkGraphNode)
    (numberOfNodesToTest : Int) (h : numberOfNodesToTest ≠ 1) :
    haltingAnalysis nodes numberOfNodesToTest = .error .unsupportedOrder := by
  simp [haltingAnalysis, h]

/-- C7 witness: fault-set size 2 on the Scenario B input fails with the
unsupported-configuration error. -/
theorem c7_witness : haltingAnalysis scenB 2 = .error .unsupportedOrder :=
  c7_unsupported_fault_size scenB 2 (by decide)

/-- C4 (counterexample): an input with two distance-0 nodes does not make
graph construction fail — the first of them is simply used as the home
node and construction succeeds. -/
theorem c4_two_homes_accepted :
    (createAnalysisStructure twoHomes).map Prod.fst = .ok "H1" :=
  rfl

/-- C4 (amended): graph construction fails with the configuration error
exactly when no input node has distance 0; an input with more than one
distance-0 node is not rejected — the first such node is used as home. -/
theorem c4_no_home_fails :
    (∀ nodes : List NetworkGraphNode, (∀ n ∈ nodes, n.distance ≠ 0) →
      createAnalysisStructure nodes = .error .noHomeNode) ∧
    (createAnalysisStructure twoHomes).map Prod.fst = .ok "H1" := by
  refine ⟨fun nodes h => ?a, rfl⟩
  have hfind : nodes.find? (fun n => n.distance == 0) = none := by
    rw [List.find?_eq_none]
    intro x hx
    simpa using h x hx
  simp [createAnalysisStructure, hfind]

/-- C4 witness: the empty input has no distance-0 node and construction
fails with the configuration error. -/
theorem c4_witness : createAnalysisStructure [] = .error .noHomeNode :=
  c4_no_home_fails.1 [] (by simp)

/-- C5 (counterexample): mixing a peer identifier with a nested quorum set
in one entry list crashes graph construction although every referenced id
exists — identifier first, the nested set is misread as an id and
construction throws the unknown-node error with the object coerced to
"[object Object]"; nested set first, the identifier is traversed as a
quorum set and a type error is raised. -/
theorem c5_mixed_list_crashes :
    createAnalysisStructure mixedInput = .error (.badNetworkGraph "[object Object]") ∧
    createAnalysisStructure mixedInputNestedFirst = .error .typeErr :=
  ⟨rfl, rfl⟩

/-- The liveness assignment extracted from a node list looks up exactly the
`live` flag of the node a cache lookup finds. -/
theorem lookupLive_liveProj (ns : List AnalysisNode) (nm : String) :
    lookupLive (liveProj ns) nm = (lookupCache ns nm).map (fun n => n.live) := by
  unfold lookupLive liveProj lookupCache
  rw [List.find?_map]
  simp [Option.map_map, Function.comp_def]

mutual

/-- Frame and refinement property of the evaluator: a successful evaluation
leaves the node list untouched, appends exactly the dead direct references
to the accumulator, and its boolean equals the pure specification-side
function of the liveness assignment. -/
theorem quorumSetMeetsThreshold_spec :
    ∀ (q : AnalysisQuorumSet) (s : PassState) (b : Bool) (s1 : PassState),
      quorumSetMeetsThreshold q s = some (b, s1) →
      s1.nodes = s.nodes ∧
      s1.deadNodes = s.deadNodes ++ collectDeadRefsQ s.nodes q ∧
      specMeets (liveProj s.nodes) q = some b
  | .mk t deps, s, b, s1, h => by
    simp only [quorumSetMeetsThreshold] at h
    rcases heq : qsmtDeps deps t s with _ | ⟨thr, s2⟩
    · rw [heq] at h
      simp at h
    · rw [heq] at h
      simp only [Option.some.injEq, Prod.mk.injEq] at h
      obtain ⟨hb, hs⟩ := h
      obtain ⟨h1, h2, h3⟩ := qsmtDeps_spec deps t s thr s2 heq
      subst hs
      refine ⟨h1, ?_, ?_⟩
      · simpa [collectDeadRefsQ] using h2
      · simp only [specMeets, h3, hb]

/-- Listwise form of `quorumSetMeetsThreshold_spec` over the dependency
list, threading the running counter. -/
theorem qsmtDeps_spec :
    ∀ (deps : ADeps) (thr : Int) (s : PassState) (thr1 : Int) (s1 : PassState),
      qsmtDeps deps thr s = some (thr1, s1) →
      s1.nodes = s.nodes ∧
      s1.deadNodes = s.deadNodes ++ collectDeadRefsD s.nodes deps ∧
      specThr (liveProj s.nodes) deps thr = some thr1
  | .nil, thr, s, thr1, s1, h => by
    simp only [qsmtDeps, Option.some.injEq, Prod.mk.injEq] at h
    obtain ⟨ht, hs⟩ := h
    subst ht hs
    exact ⟨rfl, by simp [collectDeadRefsD], by simp [specThr]⟩
  | .cons (.depSet q) rest, thr, s, thr1, s1, h => by
    simp only [qsmtDeps] at h
    rcases heq : quorumSetMeetsThreshold q s with _ | ⟨b, s2⟩
    · rw [heq] at h
      simp at h
    · rw [heq] at h
      obtain ⟨hn, hd, hm⟩ := quorumSetMeetsThreshold_spec q s b s2 heq
      obtain ⟨hn2, hd2, ht2⟩ := qsmtDeps_spec rest (if b then thr - 1 else thr) s2 thr1 s1 h
      refine ⟨hn2.trans hn, ?_, ?_⟩
      · rw [hd2, hd, hn]
        simp [collectDeadRefsD, List.append_assoc]
      · rw [hn] at ht2
        simp only [specThr, hm]
        exact ht2
  | .cons (.depName nm) rest, thr, s, thr1, s1, h => by
    simp only [qsmtDeps] at h
    rcases heq : lookupCache s.nodes nm with _ | dn
    · rw [heq] at h
      simp at h
    · rw [heq] at h
      by_cases hl : dn.live
      · simp only [hl, if_true] at h
        obtain ⟨hn2, hd2, ht2⟩ := qsmtDeps_spec rest (thr - 1) s thr1 s1 h
        refine ⟨hn2, ?_, ?_⟩
        · rw [hd2]
          simp [collectDeadRefsD, heq, hl]
        · simp only [specThr, lookupLive_liveProj, heq, Option.map_some', hl, if_true]
          exact ht2
      · simp only [eq_false_of_ne_true hl, if_false, Bool.false_eq_true] at h
        obtain ⟨hn2, hd2, ht2⟩ :=
          qsmtDeps_spec rest thr { s with deadNodes := s.deadNodes ++ [dn.networkObject] } thr1 s1 h
        refine ⟨hn2, ?_, ?_⟩
        · rw [hd2]
          simp [collectDeadRefsD, heq, eq_false_of_ne_true hl, List.append_assoc]
        · simp only [specThr, lookupLive_liveProj, heq, Option.map_some',
            eq_false_of_ne_true hl, if_false, Bool.false_eq_true]
          exact ht2

end

/-- C10: evaluating a quorum requirement leaves every node (in particular
every live flag) unchanged, its only side effect is appending the network
objects of the dead direct references to the casualty accumulator, and its
boolean result is the pure function `specMeets` of the threshold, the
dependency list and the liveness assignment alone. -/
theorem c10_evaluator_frame (q : AnalysisQuorumSet) (s : PassState) (b : Bool)
    (s1 : PassState) (h : quorumSetMeetsThreshold q s = some (b, s1)) :
    s1.nodes = s.nodes ∧
    s1.deadNodes = s.deadNodes ++ collectDeadRefsQ s.nodes q ∧
    specMeets (liveProj s.nodes) q = some b :=
  quorumSetMeetsThreshold_spec q s b s1 h

/-- C10 witness: the frame property instantiated on a one-node state whose
single node A is dead, evaluated against threshold 1 over A. -/
theorem c10_witness :
    (⟨[wNodeA], [c1NodeA]⟩ : PassState).nodes = (⟨[wNodeA], []⟩ : PassState).nodes ∧
    (⟨[wNodeA], [c1NodeA]⟩ : PassState).deadNodes =
      (⟨[wNodeA], []⟩ : PassState).deadNodes ++
        collectDeadRefsQ (⟨[wNodeA], []⟩ : PassState).nodes (.mk 1 (.cons (.depName "A") .nil)) ∧
    specMeets (liveProj (⟨[wNodeA], []⟩ : PassState).nodes)
      (.mk 1 (.cons (.depName "A") .nil)) = some false :=
  c10_evaluator_frame (.mk 1 (.cons (.depName "A") .nil)) ⟨[wNodeA], []⟩ false
    ⟨[wNodeA], [c1NodeA]⟩ rfl

/-- Liveness monotonicity is reflexive. -/
theorem liveMono_refl (ns : List AnalysisNode) : liveMono ns ns :=
  List.forall₂_same.mpr (fun _ _ => id)

/-- Equal node lists are trivially monotone. -/
theorem liveMono_of_eq {a b : List AnalysisNode} (h : a = b) : liveMono a b :=
  h ▸ liveMono_refl a

/-- Liveness monotonicity composes. -/
theorem liveMono_trans {a b c : List AnalysisNode}
    (h1 : liveMono a b) (h2 : liveMono b c) : liveMono a c := by
  unfold liveMono at h1 h2 ⊢
  induction h1 generalizing c with
  | nil =>
    cases h2
    constructor
  | cons hxy h ih =>
    cases h2 with
    | cons hyz h2t => exact .cons (fun hd => hyz (hxy hd)) (ih h2t)

/-- Marking a node dead never revives any node. -/
theorem setDead_mono (ns : List AnalysisNode) (nm : String) :
    liveMono ns (setDead ns nm) := by
  unfold liveMono setDead
  induction ns with
  | nil => constructor
  | cons a l ih =>
    simp only [List.map]
    refine .cons ?_ ih
    by_cases h : a.name == nm <;> simp [h]

/-- A successful cascade propagation never sets a live flag back to true. -/
theorem checkDependents_mono : ∀ (fuel : Nat) (deps : List String) (s s1 : PassState),
    checkDependents fuel deps s = some s1 → liveMono s.nodes s1.nodes := by
  intro fuel
  induction fuel with
  | zero =>
    intro deps s s1 h
    cases deps with
    | nil =>
      simp only [checkDependents, Option.some.injEq] at h
      exact liveMono_of_eq (congrArg PassState.nodes h)
    | cons a l => simp [checkDependents] at h
  | succ f ih =>
    intro deps s s1 h
    cases deps with
    | nil =>
      simp only [checkDependents, Option.some.injEq] at h
      exact liveMono_of_eq (congrArg PassState.nodes h)
    | cons nodeName rest =>
      simp only [checkDependents] at h
      split at h
      · simp at h
      · rename_i dn heq
        split at h
        · split at h
          · simp at h
          · rename_i s2 hq
            have hnodes := (quorumSetMeetsThreshold_spec _ _ _ _ hq).1
            exact liveMono_trans (liveMono_of_eq hnodes.symm) (ih rest s2 s1 h)
          · rename_i s2 hq
            have hnodes := (quorumSetMeetsThreshold_spec _ _ _ _ hq).1
            split at h
            · simp at h
            · rename_i s4 hc
              exact liveMono_trans (liveMono_of_eq hnodes.symm)
                (liveMono_trans (setDead_mono _ _)
                  (liveMono_trans (ih _ _ _ hc) (ih _ _ _ h)))
        · exact ih rest s s1 h

/-- C9: within a failure-simulation pass, liveness is monotonically
non-increasing — marking the candidate dead never revives a node, threshold
evaluation leaves the node list unchanged, and a successful cascade
propagation never sets a live flag back to true. -/
theorem c9_pass_liveness_monotone :
    (∀ (ns : List AnalysisNode) (nm : String), liveMono ns (setDead ns nm)) ∧
    (∀ (q : AnalysisQuorumSet) (s : PassState) (b : Bool) (s1 : PassState),
      quorumSetMeetsThreshold q s = some (b, s1) → s1.nodes = s.nodes) ∧
    (∀ (fuel : Nat) (deps : List String) (s s1 : PassState),
      checkDependents fuel deps s = some s1 → liveMono s.nodes s1.nodes) :=
  ⟨setDead_mono,
   fun q s b s1 h => (quorumSetMeetsThreshold_spec q s b s1 h).1,
   checkDependents_mono⟩

/-- C9 witness: the three monotonicity statements instantiated on a concrete
one-node state. -/
theorem c9_witness :
    liveMono [wNodeA] (setDead [wNodeA] "A") ∧
    (⟨[wNodeA], [c1NodeA]⟩ : PassState).nodes = (⟨[wNodeA], []⟩ : PassState).nodes ∧
    liveMono (⟨[wNodeA], []⟩ : PassState).nodes (⟨[wNodeA], []⟩ : PassState).nodes :=
  ⟨c9_pass_liveness_monotone.1 [wNodeA] "A",
   c9_pass_liveness_monotone.2.1 (.mk 1 (.cons (.depName "A") .nil)) ⟨[wNodeA], []⟩
     false ⟨[wNodeA], [c1NodeA]⟩ rfl,
   c9_pass_liveness_monotone.2.2 1 [] ⟨[wNodeA], []⟩ ⟨[wNodeA], []⟩ rfl⟩

/-- If the string branch of the walker meets a nested entry anywhere in its
list and no input node is named "[object Object]", the walk fails (either
earlier, or at that entry: the lookup of the coerced string finds nothing
and the unknown-node error is thrown). -/
theorem genQSDirect_nested_errors (nodes : List NetworkGraphNode)
    (gn : NetworkGraphNode → List AnalysisNode →
      Except AnalysisError (String × List AnalysisNode))
    (hobj : ∀ n ∈ nodes, n.node ≠ "[object Object]") :
    ∀ (v : QuorumSetEntries) (entryName : String) (st : List AnalysisNode),
      (∃ q, QuorumSetEntry.nested q ∈ v.toList) →
      ∃ e, genQSDirect nodes gn v entryName st = .error e
  | .nil, en, st, h => by
    simp [QuorumSetEntries.toList] at h
  | .cons (.direct d) rest, en, st, h => by
    obtain ⟨q, hq⟩ := h
    simp only [QuorumSetEntries.toList, List.mem_cons] at hq
    have hq2 : QuorumSetEntry.nested q ∈ rest.toList := by
      rcases hq with h1 | h2
      · cases h1
      · exact h2
    simp only [genQSDirect]
    rcases hf : nodes.find? (fun n => n.node == d) with _ | depNet
    · rw [hf]
      exact ⟨.badNetworkGraph d, rfl⟩
    · rw [hf]
      rcases hg : gn depNet st with e | ⟨nm, st1⟩
      · simp only [hg]
        exact ⟨e, rfl⟩
      · simp only [hg]
        exact genQSDirect_nested_errors nodes gn hobj rest en _ ⟨q, hq2⟩
  | .cons (.nested q0) rest, en, st, h => by
    have hf : nodes.find? (fun n => n.node == "[object Object]") = none := by
      rw [List.find?_eq_none]
      intro n hn
      simpa using hobj n hn
    simp only [genQSDirect]
    rw [hf]
    exact ⟨.badNetworkGraph "[object Object]", rfl⟩

/-- If the nested branch of the walker meets a peer-identifier entry
anywhere in its list, the walk fails (either earlier, or at that entry with
the type error of traversing a string as a quorum set). -/
theorem genQSNested_direct_errors (nodes : List NetworkGraphNode)
    (gn : NetworkGraphNode → List AnalysisNode →
      Except AnalysisError (String × List AnalysisNode)) :
    ∀ (v : QuorumSetEntries) (entryName : String) (st : List AnalysisNode),
      (∃ d, QuorumSetEntry.direct d ∈ v.toList) →
      ∃ e, genQSNested nodes gn v entryName st = .error e
  | .nil, en, st, h => by
    simp [QuorumSetEntries.toList] at h
  | .cons (.direct d) rest, en, st, h => ⟨.typeErr, rfl⟩
  | .cons (.nested q) rest, en, st, h => by
    obtain ⟨d, hd⟩ := h
    simp only [QuorumSetEntries.toList, List.mem_cons] at hd
    have hd2 : QuorumSetEntry.direct d ∈ rest.toList := by
      rcases hd with h1 | h2
      · cases h1
      · exact h2
    simp only [genQSNested]
    rcases hw : generateQuorumset nodes gn q en st with e | st1
    · exact ⟨e, rfl⟩
    · exact genQSNested_direct_errors nodes gn rest en st1 ⟨d, hd2⟩

/-- C5 (amended): entry lists are classified wholesale by the runtime shape
of their first entry, not per entry.  A nested-first mixed list always fails
with a type error; an identifier-first mixed list looks each nested entry up
as the coerced string "[object Object]" instead of recursing into it, so
whenever no input node carries that literal id — in particular in every
ordinary network — a mixed list makes the walk fail with an error, while an
input that does contain a node named "[object Object]" is silently accepted
with an edge to that node in place of the nested requirement. -/
theorem c5_mixed_entry_list_errors :
    (∀ (nodes : List NetworkGraphNode)
      (gn : NetworkGraphNode → List AnalysisNode →
        Except AnalysisError (String × List AnalysisNode))
      (t : Int) (v : QuorumSetEntries) (entryName : String) (st : List AnalysisNode),
      (∀ n ∈ nodes, n.node ≠ "[object Object]") →
      (∃ d, QuorumSetEntry.direct d ∈ v.toList) →
      (∃ q, QuorumSetEntry.nested q ∈ v.toList) →
      ∃ e, generateQuorumset nodes gn (.mk t v) entryName st = .error e) ∧
    (createAnalysisStructure mixedInputObjNode).map (fun r =>
      (lookupCache r.2 "H").map (fun h => h.quorumSet)) =
      .ok (some (.mk 1 (.cons (.depName "A") (.cons (.depName "[object Object]") .nil)))) := by
  refine ⟨?_, rfl⟩
  intro nodes gn t v entryName st hobj hd hn
  simp only [generateQuorumset]
  by_cases hb : isNested v
  · simp only [hb, if_true]
    exact genQSNested_direct_errors nodes gn v entryName st hd
  · simp only [Bool.not_eq_true] at hb
    simp only [hb, Bool.false_eq_true, if_false]
    exact genQSDirect_nested_errors nodes gn hobj v entryName st hn

/-- C5 witness: a concrete mixed entry list (identifier A, then a nested
set) makes the walk fail for any resolver over an input with no node named
"[object Object]". -/
theorem c5_witness :
    ∃ e, generateQuorumset [] (fun _ s => .ok ("X", s))
      (.mk 1 (.cons (.direct "A") (.cons (.nested qsetEmpty) .nil))) "H" [] = .error e :=
  c5_mixed_entry_list_errors.1 [] (fun _ s => .ok ("X", s)) 1
    (.cons (.direct "A") (.cons (.nested qsetEmpty) .nil)) "H" []
    (by simp)
    ⟨"A", by simp [QuorumSetEntries.toList]⟩
    ⟨qsetEmpty, by simp [QuorumSetEntries.toList]⟩

/-- Filtering with a stronger predicate keeps at most as many elements. -/
theorem filter_length_mono {α : Type} (p q : α → Bool)
    (h : ∀ x, p x = true → q x = true) :
    ∀ l : List α, (l.filter p).length ≤ (l.filter q).length := by
  intro l
  induction l with
  | nil => simp
  | cons a l ih =>
    by_cases hp : p a
    · have hq := h a hp
      simp only [List.filter_cons, hp, hq, if_true, List.length_cons]
      omega
    · by_cases hq : q a
      · simp only [List.filter_cons, hp, hq, if_true, Bool.false_eq_true, if_false,
          List.length_cons]
        omega
      · simp only [List.filter_cons, hp, hq, Bool.false_eq_true, if_false]
        exact ih

/-- Filtering with a stronger predicate that loses a member of the list
keeps strictly fewer elements. -/
theorem filter_length_strict {α : Type} (p q : α → Bool)
    (h : ∀ x, p x = true → q x = true) (a : α) :
    ∀ l : List α, a ∈ l → q a = true → p a = false →
      (l.filter p).length < (l.filter q).length := by
  intro l
  induction l with
  | nil => intro ha; cases ha
  | cons b l ih =>
    intro ha hqa hpa
    rcases List.mem_cons.mp ha with rfl | hmem
    · simp only [List.filter_cons, hpa, hqa, if_true, Bool.false_eq_true, if_false,
        List.length_cons]
      exact Nat.lt_succ_of_le (filter_length_mono p q h l)
    · by_cases hp : p b
      · have hq := h b hp
        simp only [List.filter_cons, hp, hq, if_true, List.length_cons]
        exact Nat.succ_lt_succ (ih hmem hqa hpa)
      · by_cases hq : q b
        · simp only [List.filter_cons, hp, hq, if_true, Bool.false_eq_true, if_false,
            List.length_cons]
          exact Nat.lt_succ_of_lt (ih hmem hqa hpa)
        · simp only [List.filter_cons, hp, hq, Bool.false_eq_true, if_false]
          exact ih hmem hqa hpa

/-- Appending one node appends its name. -/
theorem cacheNames_append (st : List AnalysisNode) (n : AnalysisNode) :
    cacheNames (st ++ [n]) = cacheNames st ++ [n.name] := by
  simp [cacheNames]

/-- A name-preserving in-place update leaves the name list unchanged. -/
theorem cacheNames_cacheUpdate (st : List AnalysisNode) (nm : String)
    (f : AnalysisNode → AnalysisNode) (hf : ∀ n, (f n).name = n.name) :
    cacheNames (cacheUpdate st nm f) = cacheNames st := by
  unfold cacheNames cacheUpdate
  rw [List.map_map]
  apply List.map_congr_left
  intro a ha
  by_cases h : a.name = nm <;> simp [h, hf]

/-- A cache lookup misses exactly when the name is not registered. -/
theorem lookupCache_eq_none_iff (st : List AnalysisNode) (nm : String) :
    lookupCache st nm = none ↔ nm ∉ cacheNames st := by
  unfold lookupCache cacheNames
  rw [List.find?_eq_none]
  simp only [beq_iff_eq, List.mem_map]
  constructor
  · rintro h ⟨a, ha, rfl⟩
    exact h a ha rfl
  · intro h a ha hne
    exact h ⟨a, ha, hne⟩

/-- A registered name is found by the cache lookup. -/
theorem lookupCache_isSome_of_mem (st : List AnalysisNode) (nm : String)
    (h : nm ∈ cacheNames st) : ∃ c, lookupCache st nm = some c := by
  rcases hc : lookupCache st nm with _ | c
  · rw [lookupCache_eq_none_iff] at hc
    exact absurd h hc
  · exact ⟨c, rfl⟩

/-- Cache extension is reflexive. -/
theorem cacheExt_refl (nodes : List NetworkGraphNode) (st : List AnalysisNode) :
    CacheExt nodes st st :=
  ⟨[], by simp, by simp, id⟩

/-- Cache extension composes. -/
theorem cacheExt_trans {nodes : List NetworkGraphNode} {a b c : List AnalysisNode}
    (h1 : CacheExt nodes a b) (h2 : CacheExt nodes b c) : CacheExt nodes a c := by
  obtain ⟨e1, hn1, m1, d1⟩ := h1
  obtain ⟨e2, hn2, m2, d2⟩ := h2
  refine ⟨e1 ++ e2, ?_, ?_, fun hd => d2 (d1 hd)⟩
  · rw [hn2, hn1, List.append_assoc]
  · intro nm hm
    rcases List.mem_append.mp hm with h | h
    · exact m1 nm h
    · exact m2 nm h

/-- Registering a fresh input node is a cache extension. -/
theorem cacheExt_register (nodes : List NetworkGraphNode) (st : List AnalysisNode)
    (node : NetworkGraphNode) (hmem : node ∈ nodes)
    (hfresh : node.node ∉ cacheNames st) (entry : AnalysisNode)
    (hname : entry.name = node.node) : CacheExt nodes st (st ++ [entry]) := by
  refine ⟨[entry.name], cacheNames_append st entry, ?_, ?_⟩
  · intro nm hm
    rcases List.mem_cons.mp hm with rfl | h
    · rw [hname]
      exact List.mem_map_of_mem _ hmem
    · cases h
  · intro hd
    rw [cacheNames_append]
    refine hd.append (List.nodup_singleton _) ?_
    intro x hx hx2
    rcases List.mem_cons.mp hx2 with rfl | h
    · rw [hname] at hx
      exact hfresh hx
    · cases h

/-- A name-preserving in-place update is a (trivial) cache extension. -/
theorem cacheExt_update (nodes : List NetworkGraphNode) (st : List AnalysisNode)
    (nm : String) (f : AnalysisNode → AnalysisNode)
    (hf : ∀ n, (f n).name = n.name) : CacheExt nodes st (cacheUpdate st nm f) := by
  have h := cacheNames_cacheUpdate st nm f hf
  exact ⟨[], by rw [h, List.append_nil], by simp, fun hd => by rw [h]; exact hd⟩

/-- Extending the cache can only shrink the number of unregistered ids. -/
theorem uncached_le_of_cacheExt {nodes : List NetworkGraphNode}
    {st st' : List AnalysisNode} (h : CacheExt nodes st st') :
    uncached nodes st' ≤ uncached nodes st := by
  obtain ⟨ext, hnames, _, _⟩ := h
  unfold uncached
  apply filter_length_mono
  intro x hx
  simp only [decide_eq_true_eq] at hx ⊢
  rw [hnames] at hx
  exact fun hmem => hx (List.mem_append_left _ hmem)

/-- Registering a fresh input node strictly decreases the number of
unregistered ids. -/
theorem uncached_register (nodes : List NetworkGraphNode) (st : List AnalysisNode)
    (node : NetworkGraphNode) (hmem : node ∈ nodes)
    (hfresh : node.node ∉ cacheNames st) (entry : AnalysisNode)
    (hname : entry.name = node.node) :
    uncached nodes (st ++ [entry]) < uncached nodes st := by
  unfold uncached
  refine filter_length_strict _ _ ?_ node.node (distinctIds nodes) ?_ ?_ ?_
  · intro x hx
    simp only [decide_eq_true_eq] at hx ⊢
    rw [cacheNames_append] at hx
    exact fun hmem2 => hx (List.mem_append_left _ hmem2)
  · unfold distinctIds
    rw [List.mem_dedup]
    exact List.mem_map_of_mem _ hmem
  · simp [hfresh]
  · simp [cacheNames_append, hname]

mutual

/-- Walking a quorum set with a well-behaved resolver never exhausts the
fuel when the fuel bounds the number of unregistered ids, and on success
only extends the cache. -/
theorem generateQuorumset_good (nodes : List NetworkGraphNode) (f : Nat)
    (gn : NetworkGraphNode → List AnalysisNode →
      Except AnalysisError (String × List AnalysisNode)) (hgn : GNGood nodes f gn) :
    ∀ (set : NetworkQuorumSet) (entryName : String) (st : List AnalysisNode),
      (uncached nodes st ≤ f →
        generateQuorumset nodes gn set entryName st ≠ .error .outOfFuel) ∧
      (∀ st', generateQuorumset nodes gn set entryName st = .ok st' →
        CacheExt nodes st st')
  | .mk t v, entryName, st => by
    have hN := genQSNested_good nodes f gn hgn v entryName st
    have hD := genQSDirect_good nodes f gn hgn v entryName st
    simp only [generateQuorumset]
    by_cases hb : isNested v
    · simpa [hb] using hN
    · simp only [Bool.not_eq_true] at hb
      simpa [hb] using hD

/-- As `generateQuorumset_good`, for the nested branch of the walker. -/
theorem genQSNested_good (nodes : List NetworkGraphNode) (f : Nat)
    (gn : NetworkGraphNode → List AnalysisNode →
      Except AnalysisError (String × List AnalysisNode)) (hgn : GNGood nodes f gn) :
    ∀ (v : QuorumSetEntries) (entryName : String) (st : List AnalysisNode),
      (uncached nodes st ≤ f →
        genQSNested nodes gn v entryName st ≠ .error .outOfFuel) ∧
      (∀ st', genQSNested nodes gn v entryName st = .ok st' → CacheExt nodes st st')
  | .nil, en, st => by
    constructor
    · intro _ h
      simp [genQSNested] at h
    · intro st' h
      simp only [genQSNested, Except.ok.injEq] at h
      exact h ▸ cacheExt_refl nodes st
  | .cons (.direct d) rest, en, st => by
    constructor
    · intro _ h
      simp [genQSNested] at h
    · intro st' h
      simp [genQSNested] at h
  | .cons (.nested q) rest, en, st => by
    have hq := generateQuorumset_good nodes f gn hgn q en st
    constructor
    · intro hfuel h
      simp only [genQSNested] at h
      rcases hw : generateQuorumset nodes gn q en st with e | st1
      · rw [hw] at h
        simp only [Except.error.injEq] at h
        exact hq.1 hfuel (h ▸ hw)
      · rw [hw] at h
        exact (genQSNested_good nodes f gn hgn rest en st1).1
          (le_trans (uncached_le_of_cacheExt (hq.2 st1 hw)) hfuel) h
    · intro st' h
      simp only [genQSNested] at h
      rcases hw : generateQuorumset nodes gn q en st with e | st1
      · rw [hw] at h
        simp at h
      · rw [hw] at h
        exact cacheExt_trans (hq.2 st1 hw)
          ((genQSNested_good nodes f gn hgn rest en st1).2 st' h)

/-- As `generateQuorumset_good`, for the string branch of the walker. -/
theorem genQSDirect_good (nodes : List NetworkGraphNode) (f : Nat)
    (gn : NetworkGraphNode → List AnalysisNode →
      Except AnalysisError (String × List AnalysisNode)) (hgn : GNGood nodes f gn) :
    ∀ (v : QuorumSetEntries) (entryName : String) (st : List AnalysisNode),
      (uncached nodes st ≤ f →
        genQSDirect nodes gn v entryName st ≠ .error .outOfFuel) ∧
      (∀ st', genQSDirect nodes gn v entryName st = .ok st' → CacheExt nodes st st')
  | .nil, en, st => by
    constructor
    · intro _ h
      simp [genQSDirect] at h
    · intro st' h
      simp only [genQSDirect, Except.ok.injEq] at h
      exact h ▸ cacheExt_refl nodes st
  | .cons (.nested q0) rest, en, st => by
    constructor
    · intro hfuel h
      simp only [genQSDirect] at h
      rcases hf : nodes.find? (fun n => n.node == "[object Object]") with _ | depNet
      · rw [hf] at h
        simp at h
      · rw [hf] at h
        have hdmem : depNet ∈ nodes := List.mem_of_find?_eq_some hf
        rcases hg : gn depNet st with e | ⟨nm, st1⟩
        · simp only [hg, Except.error.injEq] at h
          exact (hgn depNet st hdmem).1 hfuel (h ▸ hg)
        · simp only [hg] at h
          have hext1 : CacheExt nodes st st1 := ((hgn depNet st hdmem).2 nm st1 hg).1
          have hext2 := cacheExt_update nodes st1 en
            (fun n => { n with quorumSet := n.quorumSet.pushDep (.depName nm) })
            (fun n => rfl)
          have hext3 := cacheExt_update nodes
            (cacheUpdate st1 en
              (fun n => { n with quorumSet := n.quorumSet.pushDep (.depName nm) }))
            nm (fun n => { n with dependentsNames := n.dependentsNames ++ [en] })
            (fun n => rfl)
          have hall := cacheExt_trans hext1 (cacheExt_trans hext2 hext3)
          exact (genQSDirect_good nodes f gn hgn rest en _).1
            (le_trans (uncached_le_of_cacheExt hall) hfuel) h
    · intro st' h
      simp only [genQSDirect] at h
      rcases hf : nodes.find? (fun n => n.node == "[object Object]") with _ | depNet
      · rw [hf] at h
        simp at h
      · rw [hf] at h
        have hdmem : depNet ∈ nodes := List.mem_of_find?_eq_some hf
        rcases hg : gn depNet st with e | ⟨nm, st1⟩
        · simp [hg] at h
        · simp only [hg] at h
          have hext1 : CacheExt nodes st st1 := ((hgn depNet st hdmem).2 nm st1 hg).1
          have hext2 := cacheExt_update nodes st1 en
            (fun n => { n with quorumSet := n.quorumSet.pushDep (.depName nm) })
            (fun n => rfl)
          have hext3 := cacheExt_update nodes
            (cacheUpdate st1 en
              (fun n => { n with quorumSet := n.quorumSet.pushDep (.depName nm) }))
            nm (fun n => { n with dependentsNames := n.dependentsNames ++ [en] })
            (fun n => rfl)
          exact cacheExt_trans hext1 (cacheExt_trans hext2 (cacheExt_trans hext3
            ((genQSDirect_good nodes f gn hgn rest en _).2 st' h)))
  | .cons (.direct d) rest, en, st => by
    constructor
    · intro hfuel h
      simp only [genQSDirect] at h
      rcases hf : nodes.find? (fun n => n.node == d) with _ | depNet
      · rw [hf] at h
        simp at h
      · rw [hf] at h
        have hdmem : depNet ∈ nodes := List.mem_of_find?_eq_some hf
        rcases hg : gn depNet st with e | ⟨nm, st1⟩
        · simp only [hg, Except.error.injEq] at h
          exact (hgn depNet st hdmem).1 hfuel (h ▸ hg)
        · simp only [hg] at h
          have hext1 : CacheExt nodes st st1 := ((hgn depNet st hdmem).2 nm st1 hg).1
          have hext2 := cacheExt_update nodes st1 en
            (fun n => { n with quorumSet := n.quorumSet.pushDep (.depName nm) })
            (fun n => rfl)
          have hext3 := cacheExt_update nodes
            (cacheUpdate st1 en
              (fun n => { n with quorumSet := n.quorumSet.pushDep (.depName nm) }))
            nm (fun n => { n with dependentsNames := n.dependentsNames ++ [en] })
            (fun n => rfl)
          have hall := cacheExt_trans hext1 (cacheExt_trans hext2 hext3)
          exact (genQSDirect_good nodes f gn hgn rest en _).1
            (le_trans (uncached_le_of_cacheExt hall) hfuel) h
    · intro st' h
      simp only [genQSDirect] at h
      rcases hf : nodes.find? (fun n => n.node == d) with _ | depNet
      · rw [hf] at h
        simp at h
      · rw [hf] at h
        have hdmem : depNet ∈ nodes := List.mem_of_find?_eq_some hf
        rcases hg : gn depNet st with e | ⟨nm, st1⟩
        · simp [hg] at h
        · simp only [hg] at h
          have hext1 : CacheExt nodes st st1 := ((hgn depNet st hdmem).2 nm st1 hg).1
          have hext2 := cacheExt_update nodes st1 en
            (fun n => { n with quorumSet := n.quorumSet.pushDep (.depName nm) })
            (fun n => rfl)
          have hext3 := cacheExt_update nodes
            (cacheUpdate st1 en
              (fun n => { n with quorumSet := n.quorumSet.pushDep (.depName nm) }))
            nm (fun n => { n with dependentsNames := n.dependentsNames ++ [en] })
            (fun n => rfl)
          exact cacheExt_trans hext1 (cacheExt_trans hext2 (cacheExt_trans hext3
            ((genQSDirect_good nodes f gn hgn rest en _).2 st' h)))

end

/-- `generateNode` is well behaved at every fuel level: with fuel at least
the number of unregistered input ids it never exhausts the fuel (cyclic
references only ever hit the cache), and on success it only extends the
cache and returns the requested node's id. -/
theorem generateNode_good (nodes : List NetworkGraphNode) :
    ∀ (fuel : Nat), GNGood nodes fuel (fun nd st => generateNode nodes fuel nd st) := by
  intro fuel
  induction fuel with
  | zero =>
    intro node st hmem
    constructor
    · intro hfuel
      have hzero : uncached nodes st = 0 := Nat.le_zero.mp hfuel
      have hmem2 : node.node ∈ cacheNames st := by
        by_contra hnot
        have hin : node.node ∈ (distinctIds nodes).filter
            (fun id => decide (id ∉ cacheNames st)) := by
          rw [List.mem_filter]
          refine ⟨?_, by simp [hnot]⟩
          unfold distinctIds
          rw [List.mem_dedup]
          exact List.mem_map_of_mem _ hmem
        have hpos : 0 < uncached nodes st := List.length_pos_of_mem hin
        omega
      obtain ⟨c, hc⟩ := lookupCache_isSome_of_mem st node.node hmem2
      simp [generateNode, hc]
    · intro nm st' h
      simp only [generateNode] at h
      rcases hc : lookupCache st node.node with _ | c
      · simp only [hc] at h
        simp at h
      · simp only [hc, Except.ok.injEq, Prod.mk.injEq] at h
        obtain ⟨hnm, hst⟩ := h
        subst hst
        have hc2 := hc
        unfold lookupCache at hc2
        have hcname : c.name = node.node := by simpa using List.find?_some hc2
        have hcmem : c ∈ st := List.mem_of_find?_eq_some hc2
        refine ⟨cacheExt_refl nodes st, by rw [← hnm, hcname], ?_⟩
        rw [← hnm]
        simp only [cacheNames]
        exact List.mem_map_of_mem _ hcmem
  | succ f ih =>
    intro node st hmem
    constructor
    · intro hfuel h
      simp only [generateNode] at h
      rcases hc : lookupCache st node.node with _ | c
      · simp only [hc] at h
        have hfresh : node.node ∉ cacheNames st :=
          (lookupCache_eq_none_iff st node.node).mp hc
        rcases hw : generateQuorumset nodes (fun nd s => generateNode nodes f nd s)
            node.qset node.node (st ++ [freshEntry node]) with e | st2
        · simp only [hw, Except.error.injEq] at h
          subst h
          have hlt := uncached_register nodes st node hmem hfresh (freshEntry node) rfl
          refine (generateQuorumset_good nodes f _ ih node.qset node.node _).1 ?_ hw
          omega
        · simp only [hw] at h
          simp at h
      · simp only [hc] at h
        simp at h
    · intro nm st' h
      simp only [generateNode] at h
      rcases hc : lookupCache st node.node with _ | c
      · simp only [hc] at h
        have hfresh : node.node ∉ cacheNames st :=
          (lookupCache_eq_none_iff st node.node).mp hc
        rcases hw : generateQuorumset nodes (fun nd s => generateNode nodes f nd s)
            node.qset node.node (st ++ [freshEntry node]) with e | st2
        · simp only [hw] at h
          simp at h
        · simp only [hw, Except.ok.injEq, Prod.mk.injEq] at h
          obtain ⟨hnm, hst⟩ := h
          subst hst
          have hext1 := cacheExt_register nodes st node hmem hfresh (freshEntry node) rfl
          have hext2 := (generateQuorumset_good nodes f _ ih node.qset node.node _).2 st2 hw
          refine ⟨cacheExt_trans hext1 hext2, hnm.symm, ?_⟩
          rw [← hnm]
          obtain ⟨ext, hnames, _, _⟩ := hext2
          rw [hnames, cacheNames_append]
          exact List.mem_append_left _ (List.mem_append_right _ (by simp [freshEntry]))
      · simp only [hc, Except.ok.injEq, Prod.mk.injEq] at h
        obtain ⟨hnm, hst⟩ := h
        subst hst
        have hc2 := hc
        unfold lookupCache at hc2
        have hcname : c.name = node.node := by simpa using List.find?_some hc2
        have hcmem : c ∈ st := List.mem_of_find?_eq_some hc2
        refine ⟨cacheExt_refl nodes st, by rw [← hnm, hcname], ?_⟩
        rw [← hnm]
        simp only [cacheNames]
        exact List.mem_map_of_mem _ hcmem

/-- C8: for every input collection — cyclic quorum references included —
graph construction terminates: the fuel budget `length + 1` is never
exhausted, because a node is registered in the cache before its quorum tree
is recursed into, so the depth of nested `generateNode` calls is bounded by
the number of unregistered ids. -/
theorem c8_construction_terminates (nodes : List NetworkGraphNode) :
    isOutOfFuel (createAnalysisStructure nodes) = false := by
  unfold createAnalysisStructure
  rcases hf : nodes.find? (fun n => n.distance == 0) with _ | myNode
  · rw [hf]
    rfl
  · simp only [hf]
    have hmem : myNode ∈ nodes := List.mem_of_find?_eq_some hf
    have hfuel : uncached nodes [] ≤ nodes.length + 1 := by
      unfold uncached
      have h1 := List.length_filter_le
        (fun id => decide (id ∉ cacheNames [])) (distinctIds nodes)
      have h2 : (distinctIds nodes).length ≤ nodes.length := by
        unfold distinctIds
        have h3 := List.Sublist.length_le
          (List.dedup_sublist (nodes.map (fun n => n.node)))
        simpa using h3
      omega
    have hgood := (generateNode_good nodes (nodes.length + 1) myNode [] hmem).1 hfuel
    rcases hg : generateNode nodes (nodes.length + 1) myNode [] with e | p
    · simp only [hg]
      cases e <;> first | rfl | exact absurd hg hgood
    · obtain ⟨rootName, cache⟩ := p
      simp only [hg]
      rfl

/-- C3 (amended): on success, the analysis graph has pairwise distinct node
names, every entry's name is the id of some input node, and the home node is
among the entries — but input nodes unreachable from the home node are
omitted, so there is one entry per distinct reachable input id rather than
one per distinct input id. -/
theorem c3_entries_shape (nodes : List NetworkGraphNode) (root : String)
    (entries : List AnalysisNode)
    (h : createAnalysisStructure nodes = .ok (root, entries)) :
    (cacheNames entries).Nodup ∧
    (∀ nm ∈ cacheNames entries, nm ∈ nodes.map (fun n => n.node)) ∧
    root ∈ cacheNames entries := by
  unfold createAnalysisStructure at h
  rcases hf : nodes.find? (fun n => n.distance == 0) with _ | myNode
  · simp only [hf] at h
    simp at h
  · simp only [hf] at h
    have hmem : myNode ∈ nodes := List.mem_of_find?_eq_some hf
    rcases hg : generateNode nodes (nodes.length + 1) myNode [] with e | p
    · simp only [hg] at h
      simp at h
    · obtain ⟨rootName, cache⟩ := p
      simp only [hg, Except.ok.injEq, Prod.mk.injEq] at h
      obtain ⟨hr, he⟩ := h
      subst hr he
      obtain ⟨hext, hnm, hmem2⟩ :=
        (generateNode_good nodes (nodes.length + 1) myNode [] hmem).2 rootName cache hg
      obtain ⟨ext, hnames, hids, hnodup⟩ := hext
      refine ⟨hnodup (by simp [cacheNames]), ?_, hmem2⟩
      intro nm2 hnm2
      rw [hnames] at hnm2
      rcases List.mem_append.mp hnm2 with h0 | h0
      · simp [cacheNames] at h0
      · exact hids nm2 h0

/-- C3 witness: the shape property instantiated on the Scenario B input and
its concrete analysis graph. -/
theorem c3_witness :
    (cacheNames [scenBEntryH, scenBEntryA]).Nodup ∧
    (∀ nm ∈ cacheNames [scenBEntryH, scenBEntryA], nm ∈ scenB.map (fun n => n.node)) ∧
    "H" ∈ cacheNames [scenBEntryH, scenBEntryA] :=
  c3_entries_shape scenB "H" [scenBEntryH, scenBEntryA] rfl

/-- C3 (counterexample): on the Scenario B input the entries list contains
only H and A — the unreferenced input node B is omitted, so the graph does
not contain one analysis node per distinct input id. -/
theorem c3_unreachable_node_omitted :
    (createAnalysisStructure scenB).map (fun r => r.2.map (fun n => n.name)) =
      .ok ["H", "A"] ∧
    "B" ∈ scenB.map (fun n => n.node) ∧
    ("B" : String) ∉ ["H", "A"] :=
  ⟨rfl, by decide, by decide⟩
